import Mathlib

/-!
Verification development for `mldatafind/io.py`.

The file shallowly embeds the three operations of the module:

* the filename grammar `fname_re` and the catalog sorter
  `filter_and_sort_files` (list-input branch; the directory branch performs
  filesystem I/O and is outside the pure model),
* the archive writer `write_timeseries`,
* the archive reader `read_timeseries`.

Modelling conventions:

* Python ints are `ℤ`, Python floats are exact rationals `ℚ` (the float
  values exercised by the theorems are exactly representable; rounding of
  binary floating point is not modelled).  Python float `repr`/`str` is
  modelled as the exact positional decimal expansion, which agrees with
  CPython for the values appearing here (integral values below 10^16 and
  short terminating fractions).
* Exceptions are modelled with `Except PyErr`; an error result means the
  call raised before returning (and in particular wrote no file).
* `re.search` with the module's pattern is implemented as an explicit
  backtracking matcher with CPython semantics: leftmost start position,
  greedy `+`/`{0,3}` with backtracking, unescaped `.` matching any
  character except a newline, and `$` accepting the end of the string or a
  single trailing newline.
-/

namespace Mldatafind

instance instDecEqExcept {ε α : Type _} [DecidableEq ε] [DecidableEq α] :
    DecidableEq (Except ε α) := fun x y =>
  match x, y with
  | .ok a, .ok b =>
    if h : a = b then .isTrue (by rw [h]) else .isFalse (by simp [h])
  | .ok _, .error _ => .isFalse (by simp)
  | .error _, .ok _ => .isFalse (by simp)
  | .error e, .error e2 =>
    if h : e = e2 then .isTrue (by rw [h]) else .isFalse (by simp [h])

/-- Python exception kinds raised by the module (or by the runtime while the
module executes), with their message where a claim depends on it. -/
inductive PyErr where
  | valueError (msg : String)
  | typeError (msg : String)
  | attributeError (msg : String)
  | keyError (msg : String)
  | zeroDivisionError (msg : String)
deriving DecidableEq, Repr

/-- A Python number: an `int` or a `float` (modelled as an exact rational). -/
inductive PyNum where
  | int (n : ℤ)
  | float (q : ℚ)
deriving DecidableEq, Repr

/-- The decimal digit character for `n < 10`. -/
def digitChar (n : ℕ) : Char := Char.ofNat (48 + n)

/-- Decimal digits of a natural number, fuel-driven so that the kernel can
evaluate it (`fuel > n` suffices). -/
def natDigsAux : ℕ → ℕ → List Char
  | 0, _ => []
  | fuel + 1, n =>
    if n < 10 then [digitChar n]
    else natDigsAux fuel (n / 10) ++ [digitChar (n % 10)]

/-- Python `str` of a non-negative integer. -/
def pyNatStr (n : ℕ) : String := String.mk (natDigsAux (n + 1) n)

/-- Python `str` of an `int`. -/
def pyIntStr (z : ℤ) : String :=
  if z < 0 then "-" ++ pyNatStr z.natAbs else pyNatStr z.natAbs

/-- Digits of the fractional part `r / den` (`0 < r < den`), fuel-driven;
terminates with the exact expansion whenever it is finite, which is the case
for every value a Python float can hold. -/
def fracDigits (den : ℕ) : ℕ → ℕ → List Char
  | 0, _ => []
  | fuel + 1, r =>
    if r = 0 then []
    else digitChar (r * 10 / den) :: fracDigits den fuel (r * 10 % den)

/-- Python `str` of a non-negative float with value `num / den`. -/
def decFloatStr (num den : ℕ) : String :=
  if num % den = 0 then pyNatStr (num / den) ++ ".0"
  else pyNatStr (num / den) ++ "." ++ String.mk (fracDigits den (den + 1) (num % den))

/-- Python `str` of a float (exact rational value, positional notation). -/
def pyFloatStr (q : ℚ) : String :=
  if q.num < 0 then "-" ++ decFloatStr q.num.natAbs q.den
  else decFloatStr q.num.natAbs q.den

/-- Python `str` of a number, as interpolated by an f-string. -/
def pyNumStr : PyNum → String
  | .int z => pyIntStr z
  | .float q => pyFloatStr q

/-! ### The filename grammar

```
prefix_re = "[a-zA-Z0-9_:-]+"
t0_re = "[0-9]{10}"
length_re = "[1-9][0-9]{0,3}"
fname_re = re.compile(
    f"(?P<prefix>{prefix_re})-"
    f"(?P<t0>{t0_re})-"
    f"(?P<length>{length_re})"
    ".(?P<suffix>gwf|hdf5|h5)$"
)
```
Note the `.` before the suffix group is unescaped.
-/

/-- Membership in the character class `[a-zA-Z0-9_:-]`. -/
def isPfxChar (c : Char) : Bool :=
  c.isAlpha || c.isDigit || c = '_' || c = ':' || c = '-'

/-- The four named groups of a successful `fname_re` match. -/
structure FMatch where
  pfxG : String
  t0G : String
  lenG : String
  sufG : String
deriving DecidableEq, Repr

/-- Python `$`: end of the subject, or just before one trailing newline. -/
def dollarOk : List Char → Bool
  | [] => true
  | [c] => c = '\n'
  | _ => false

/-- `(gwf|hdf5|h5)$` on the remaining characters, in alternation order. -/
def sufMatch (l : List Char) : Option String :=
  if l.take 3 = "gwf".toList ∧ dollarOk (l.drop 3) then some "gwf"
  else if l.take 4 = "hdf5".toList ∧ dollarOk (l.drop 4) then some "hdf5"
  else if l.take 2 = "h5".toList ∧ dollarOk (l.drop 2) then some "h5"
  else none

/-- The unescaped `.`: one character that is not a newline, then the suffix. -/
def anyDot : List Char → Option String
  | [] => none
  | c :: rest => if c = '\n' then none else sufMatch rest

/-- One greedy candidate for `[0-9]{0,3}`: exactly `k` further digits. -/
def lenTryK (c : Char) (l : List Char) (k : ℕ) : Option (String × String) :=
  let ds := l.take k
  if ds.length = k ∧ ds.all Char.isDigit then
    (anyDot (l.drop k)).map (fun suf => (String.mk (c :: ds), suf))
  else none

/-- `[1-9][0-9]{0,3}` greedy with backtracking, then `.` and the suffix.
Returns the length group and the suffix group. -/
def lenMatch : List Char → Option (String × String)
  | [] => none
  | c :: rest =>
    if c.isDigit ∧ c ≠ '0' then
      lenTryK c rest 3 <|> lenTryK c rest 2 <|> lenTryK c rest 1 <|> lenTryK c rest 0
    else none

/-- `[0-9]{10}-` then the length part.  Returns t0, length and suffix groups. -/
def t0Match (l : List Char) : Option (String × String × String) :=
  if (l.take 10).length = 10 ∧ (l.take 10).all Char.isDigit then
    match l.drop 10 with
    | '-' :: rest => (lenMatch rest).map (fun p => (String.mk (l.take 10), p.1, p.2))
    | _ => none
  else none

/-- The literal `-` separating the prefix group from the t0 group. -/
def afterPfx : List Char → Option (String × String × String)
  | '-' :: rest => t0Match rest
  | _ => none

/-- Greedy backtracking over the prefix length: try `j, j-1, …, 1` characters
of prefix (the regex `+` first consumes the maximal class run, then backs
off one character at a time). -/
def pfxTry (l : List Char) : ℕ → Option FMatch
  | 0 => none
  | j + 1 =>
    match afterPfx (l.drop (j + 1)) with
    | some (t, le, su) => some ⟨String.mk (l.take (j + 1)), t, le, su⟩
    | none => pfxTry l j

/-- Attempt a match anchored at the current position. -/
def matchHere (l : List Char) : Option FMatch :=
  pfxTry l (l.takeWhile isPfxChar).length

/-- `re.search`: leftmost matching start position. -/
def searchFrom : List Char → Option FMatch
  | [] => none
  | c :: rest => matchHere (c :: rest) <|> searchFrom rest

/-- `fname_re.search` on a string. -/
def fnameSearch (s : String) : Option FMatch := searchFrom s.toList

/-! ### The catalog sorter, `filter_and_sort_files` (iterable branch)

The function also accepts a single directory path and lists it; that branch
performs filesystem I/O (`is_dir`, `iterdir`) and is outside this pure model.
Every claim concerns the iterable branch modelled here.
-/

/-- An element of the input iterable: a `pathlib.Path` or a plain `str`. -/
inductive Ident where
  | path (s : String)
  | str (s : String)
deriving DecidableEq, Repr

/-- The underlying string of an identifier. -/
def Ident.raw : Ident → String
  | .path s => s
  | .str s => s

/-- `isinstance(i, Path)`. -/
def Ident.isPath : Ident → Bool
  | .path _ => true
  | .str _ => false

/-- `isinstance(i, str)`. -/
def Ident.isStr : Ident → Bool
  | .path _ => false
  | .str _ => true

/-- Split a character list at `/` separators. -/
def splitSlash : List Char → List (List Char)
  | [] => [[]]
  | c :: rest =>
    let r := splitSlash rest
    if c = '/' then [] :: r
    else
      match r with
      | h :: t => (c :: h) :: t
      | [] => [[c]]

/-- The path components pathlib keeps: empty and `.` components are dropped. -/
def pathComps (s : String) : List (List Char) :=
  (splitSlash s.toList).filter (fun cmp => cmp ≠ [] ∧ cmp ≠ ['.'])

/-- `pathlib.Path(s).name` (POSIX): the last component, or `""` when there is
none. -/
def pyBaseName (s : String) : String :=
  match (pathComps s).getLast? with
  | some cmp => String.mk cmp
  | none => ""

/-- The string a `pathlib.Path` compares by (its normalized form: components
joined by single slashes, with the root slash kept). -/
def pathKeyStr (s : String) : String :=
  let body := String.mk (List.intercalate ['/'] (pathComps s))
  if s.toList.head? = some '/' then "/" ++ body else body

/-- The value Python compares when ordering the second tuple component: the
string itself for `str`, the normalized path string for `Path`. -/
def Ident.cmpStr : Ident → String
  | .path s => pathKeyStr s
  | .str s => s

/-- Strict lexicographic order on character lists by code point, exactly
Python string `<`. -/
def clLt : List Char → List Char → Bool
  | [], [] => false
  | [], _ :: _ => true
  | _ :: _, [] => false
  | a :: as, b :: bs =>
    if a.toNat < b.toNat then true
    else if a.toNat = b.toNat then clLt as bs
    else false

/-- Non-strict lexicographic order on character lists. -/
def clLe (a b : List Char) : Bool := clLt a b || a = b

/-- A catalog tuple `(m.group("t0"), f, m)` as built by the sorter. -/
abbrev Tup := String × Ident × FMatch

/-- The part of a tuple Python's tuple comparison actually orders by: the t0
group string and the comparison string of the identifier.  The third tuple
component (`re.Match`) supports no ordering at all. -/
def keyOf (t : Tup) : String × String := (t.1, t.2.1.cmpStr)

/-- Tuple order used by `sorted`: lexicographic on `keyOf`.  Two tuples with
equal keys are incomparable in Python (comparing the match objects raises
`TypeError`), which the duplicate-key guard in `sortTups` accounts for. -/
def keyLe (x y : Tup) : Bool :=
  clLt x.1.toList y.1.toList ||
    (x.1.toList = y.1.toList && clLe x.2.1.cmpStr.toList y.2.1.cmpStr.toList)

/-- The ordering relation of the sort as a `Prop`. -/
def TupLe (x y : Tup) : Prop := keyLe x y = true

instance : DecidableRel TupLe := fun x y => by
  unfold TupLe
  infer_instance

/-- `sorted(tups)`.  CPython's sort is a stable comparison sort using `<` on
the tuples, so on any input whose tuples have pairwise distinct keys it
computes exactly the stable sort by `keyOf` (any stable sort agrees with it,
`List.insertionSort` here).  When two tuples share a key the sort compares
their `re.Match` objects and raises `TypeError`; the model reports that
error whenever a duplicate key is present (exact for the inputs of the
claims: a two-element list of one duplicated filename makes CPython perform
exactly that comparison). -/
def sortTups (ts : List Tup) : Except PyErr (List Tup) :=
  if (ts.map keyOf).Nodup then .ok (ts.insertionSort TupLe)
  else .error (.typeError "not supported between instances of re.Match and re.Match")

/-- `tups = [(m.group("t0"), f, m) for m, f in matches if m is not None]`,
where each pair carries the name used for matching and the original
identifier. -/
def mkTups (pairs : List (String × Ident)) : List Tup :=
  pairs.filterMap (fun nf => (fnameSearch nf.1).map (fun m => (m.t0G, nf.2, m)))

/-- The iterable branch of `filter_and_sort_files`, up to the sorted tuple
list.  The mixed-type branch evaluates
`", ".join([type(i) for i in fnames])`, and `str.join` over type objects
raises `TypeError` before the intended `ValueError` is constructed. -/
def filter_and_sort_core (fnames : List Ident) : Except PyErr (List Tup) :=
  if fnames.all Ident.isPath then
    sortTups (mkTups (fnames.map (fun f => (pyBaseName f.raw, f))))
  else if ¬ (fnames.all Ident.isStr) then
    .error (.typeError "sequence item 0: expected str instance, type found")
  else
    sortTups (mkTups (fnames.map (fun f => (pyBaseName f.raw, f))))

/-- `filter_and_sort_files(fnames)` with `return_matches=False`: the ordered
original identifiers. -/
def filter_and_sort_files (fnames : List Ident) : Except PyErr (List Ident) :=
  (filter_and_sort_core fnames).map (fun ts => ts.map (fun t => t.2.1))

/-- `filter_and_sort_files(fnames, return_matches=True)`: the ordered match
objects. -/
def filter_and_sort_matches (fnames : List Ident) : Except PyErr (List FMatch) :=
  (filter_and_sort_core fnames).map (fun ts => ts.map (fun t => t.2.2))

/-- The natural number denoted by a digit string (most significant first). -/
def valD : List Char → ℕ
  | [] => 0
  | c :: cs => (c.toNat - 48) * 10 ^ cs.length + valD cs

/-- Whether an identifier's base name matches the filename grammar. -/
def matchesB (i : Ident) : Bool := (fnameSearch (pyBaseName i.raw)).isSome

/-- The numeric value of the matched t0 field of an identifier (0 when the
base name does not match; only ever used on matching identifiers). -/
def t0NumOf (i : Ident) : ℕ :=
  match fnameSearch (pyBaseName i.raw) with
  | some m => valD m.t0G.toList
  | none => 0

/-! ### The archive codec -/

/-- One channel entry of an archive file: the sample sequence and its
`sample_rate` attribute. -/
structure H5Dataset where
  data : List ℚ
  sampleRate : ℚ
deriving DecidableEq, Repr

/-- An archive file: the global `t0` attribute (absent until first set) and
the per-channel datasets in creation order. -/
structure H5File where
  t0attr : Option PyNum
  datasets : List (String × H5Dataset)
deriving DecidableEq, Repr

/-- A reconstructed `TimeSeries`: samples, start time, sample rate. -/
structure TS where
  data : List ℚ
  t0 : PyNum
  sampleRate : ℚ
deriving DecidableEq, Repr

/-- The `sample_rate` argument of `write_timeseries`: a float, a list of
floats, or an int (which the code neither broadcasts nor accepts). -/
inductive SRSpec where
  | float (r : ℚ)
  | int (n : ℤ)
  | list (rs : List ℚ)
deriving DecidableEq, Repr

/-- Python float division (`a / b`, `b ≠ 0`), computed without the
irreducible `Rat.mul`/`Rat.inv` so that the kernel can evaluate it;
`pyDivQ_eq_div` below proves it is division. -/
def pyDivQ (a b : ℚ) : ℚ := Rat.divInt (a.num * (b.den : ℤ)) ((a.den : ℤ) * b.num)

/-- `[len(dataset) / sample_rate for dataset, sample_rate in zip(...)]`:
evaluated left to right, a zero rate raises `ZeroDivisionError`. -/
def durationsOf : List (String × List ℚ) → List ℚ → Except PyErr (List ℚ)
  | [], _ => .ok []
  | _ :: _, [] => .ok []
  | ch :: cs, r :: rs =>
    if r = 0 then .error (.zeroDivisionError "float division by zero")
    else do
      let ds ← durationsOf cs rs
      .ok (pyDivQ ((ch.2.length : ℚ)) r :: ds)

/-- Python `int()` applied to a float: truncation toward zero. -/
def pyTruncQ (q : ℚ) : ℤ := q.num.tdiv (q.den : ℤ)

/-- `length = int(length) if int(length) == length else length`. -/
def normalizeLength (q : ℚ) : PyNum :=
  if (pyTruncQ q : ℚ) = q then .int (pyTruncQ q) else .float q

/-- The base name the writer formats: `f"{prefix}-{t0}-{length}.hdf5"`. -/
def mkFname (pfx : String) (t0 : PyNum) (lenF : PyNum) : String :=
  pfx ++ "-" ++ pyNumStr t0 ++ "-" ++ pyNumStr lenF ++ ".hdf5"

/-- The archive file the write loop builds: the `t0` attribute is set inside
the per-channel loop, so it is present exactly when there is a channel (the
validation code never lets an empty channel set reach this point). -/
def mkFile (t0 : PyNum) (chs : List (String × List ℚ)) (rs : List ℚ) : H5File :=
  { t0attr := if chs.length = 0 then none else some t0
  , datasets := (chs.zip rs).map (fun p => (p.1.1, ⟨p.1.2, p.2⟩)) }

/-- The per-channel sample-rate list after the broadcast step (empty for the
`int` case, which never reaches a use of it). -/
def specRates : SRSpec → ℕ → List ℚ
  | .float r, n => List.replicate n r
  | .list rs, _ => rs
  | .int _, _ => []

/-- `write_timeseries` after the broadcast step, with the per-channel rate
list in hand: cardinality check, duration check, filename formatting, file
creation.  The returned string is the base name of the written file (the
code prepends `write_dir`, which no claim concerns). -/
def writeChecked (t0 : PyNum) (pfx : String) (chs : List (String × List ℚ))
    (rs : List ℚ) : Except PyErr (String × H5File) :=
  if rs.length ≠ chs.length then
    .error (.valueError ("Only " ++ pyNatStr rs.length
      ++ " sample rates provided for " ++ pyNatStr chs.length ++ " channels"))
  else
    match durationsOf chs rs with
    | .error e => .error e
    | .ok ls =>
      if ls.dedup.length = 1 then
        .ok (mkFname pfx t0 (normalizeLength (ls.headD 0)), mkFile t0 chs rs)
      else .error (.valueError "Duration of datasets must all be equal")

/-- `write_timeseries(write_dir, t0, sample_rate, prefix, **channels)`.
A float rate is broadcast (`isinstance(sample_rate, float)`); an int rate is
not, and `len(sample_rate)` then raises `TypeError`. -/
def write_timeseries (t0 : PyNum) (spec : SRSpec) (pfx : String)
    (chs : List (String × List ℚ)) : Except PyErr (String × H5File) :=
  match spec with
  | .float r => writeChecked t0 pfx chs (List.replicate chs.length r)
  | .list rs => writeChecked t0 pfx chs rs
  | .int _ => .error (.typeError "object of type int has no len()")

/-- Python dict insertion: an existing key keeps its position and gets the
new value, a fresh key is appended. -/
def dinsert : List (String × TS) → String → TS → List (String × TS)
  | [], k, v => [(k, v)]
  | (k0, v0) :: rest, k, v =>
    if k0 = k then (k0, v) :: rest else (k0, v0) :: dinsert rest k v

/-- The per-channel loop of `read_timeseries`.  A missing channel takes the
`except KeyError` branch, which evaluates `path.fname` while formatting the
intended `ValueError`; `pathlib.Path` has no attribute `fname`, so what is
raised is an `AttributeError`. -/
def readGo (file : H5File) (t0 : PyNum) :
    List (String × TS) → List String → Except PyErr (List (String × TS))
  | acc, [] => .ok acc
  | acc, c :: cs =>
    match file.datasets.lookup c with
    | none => .error (.attributeError "PosixPath object has no attribute fname")
    | some ds => readGo file t0 (dinsert acc c ⟨ds.data, t0, ds.sampleRate⟩) cs

/-- The `TimeSeries` reconstructed for channel `c` from a dataset list (used
to state the round-trip theorem; the default value is never reached when the
channel is present). -/
def tsOfD (dss : List (String × H5Dataset)) (t0 : PyNum) (c : String) : TS :=
  match dss.lookup c with
  | some d => ⟨d.data, t0, d.sampleRate⟩
  | none => ⟨[], t0, 0⟩

/-- `read_timeseries(path, *channels)` on the (already opened) archive
contents.  The `path` argument is only ever used while formatting the
missing-channel error. -/
def read_timeseries (file : H5File) (_path : String) (chans : List String) :
    Except PyErr (List (String × TS)) :=
  match file.t0attr with
  | none => .error (.keyError "t0")
  | some t0 => readGo file t0 [] chans

/-! ### Helper lemmas -/

/-- `pyDivQ` is exact division on the rationals the model manipulates. -/
theorem pyDivQ_eq_div (a b : ℚ) (hb : b ≠ 0) : pyDivQ a b = a / b := by
  have hbn : (b.num : ℚ) ≠ 0 := Int.cast_ne_zero.mpr (Rat.num_ne_zero.mpr hb)
  have hadQ : ((a.den : ℚ)) ≠ 0 := Nat.cast_ne_zero.mpr a.den_nz
  have hbdQ : ((b.den : ℚ)) ≠ 0 := Nat.cast_ne_zero.mpr b.den_nz
  unfold pyDivQ
  rw [Rat.divInt_eq_div]
  push_cast
  conv_rhs => rw [← Rat.num_div_den a, ← Rat.num_div_den b]
  field_simp

/-- A nonempty list has a one-element `dedup` exactly when its elements are
pairwise equal — the model counterpart of `len(set(lengths)) == 1`. -/
theorem dedup_length_one_iff {α : Type _} [DecidableEq α] (l : List α) (h : l ≠ []) :
    l.dedup.length = 1 ↔ l.Pairwise (· = ·) := by
  constructor
  · intro h1
    obtain ⟨a, ha⟩ := List.length_eq_one.mp h1
    have hall : ∀ x ∈ l, x = a := by
      intro x hx
      have hm : x ∈ l.dedup := List.mem_dedup.mpr hx
      rw [ha] at hm
      simpa using hm
    exact List.pairwise_of_forall_mem_list
      (fun x hx y hy => by rw [hall x hx, hall y hy])
  · intro hp
    obtain ⟨a, as, rfl⟩ := List.exists_cons_of_ne_nil h
    have hall : ∀ x ∈ a :: as, x = a := by
      intro x hx
      rcases List.mem_cons.mp hx with rfl | hx2
      · rfl
      · exact ((List.pairwise_cons.mp hp).1 x hx2).symm
    rcases hd : (a :: as).dedup with _ | ⟨x, _ | ⟨y, t⟩⟩
    · exact absurd ((List.dedup_eq_nil _).mp hd) (by simp)
    · rfl
    · exfalso
      have hnd := List.nodup_dedup (a :: as)
      rw [hd] at hnd
      have hx : x = a := hall x (List.mem_dedup.mp (by rw [hd]; exact List.mem_cons_self _ _))
      have hy : y = a := hall y
        (List.mem_dedup.mp (by rw [hd]; exact List.mem_cons.mpr (Or.inr (List.mem_cons_self _ _))))
      rcases List.nodup_cons.mp hnd with ⟨hxmem, -⟩
      exact hxmem (by rw [hx, ← hy]; exact List.mem_cons_self _ _)

/-- With all rates nonzero, the duration comprehension succeeds and computes
`len(samples) / rate` channel by channel. -/
theorem durationsOf_eq (chs : List (String × List ℚ)) (rs : List ℚ)
    (hnz : ∀ r ∈ rs, r ≠ 0) :
    durationsOf chs rs =
      .ok (List.zipWith (fun c r => ((c.2.length : ℚ) / r)) chs rs) := by
  induction chs generalizing rs with
  | nil => cases rs <;> rfl
  | cons c cs ih =>
    cases rs with
    | nil => rfl
    | cons r rs2 =>
      have hr : r ≠ 0 := hnz r (List.mem_cons_self _ _)
      have ih2 := ih rs2 (fun x hx => hnz x (List.mem_cons.mpr (Or.inr hx)))
      simp only [durationsOf, if_neg hr, ih2, List.zipWith_cons_cons,
        pyDivQ_eq_div _ _ hr]
      rfl

/-- `durationsOf` yields one duration per zipped channel/rate pair. -/
theorem durationsOf_length (chs : List (String × List ℚ)) :
    ∀ (rs ls : List ℚ), durationsOf chs rs = .ok ls →
      ls.length = min chs.length rs.length := by
  induction chs with
  | nil =>
    intro rs ls h
    cases rs <;> (simp [durationsOf] at h; simp [← h])
  | cons c cs ih =>
    intro rs ls h
    cases rs with
    | nil => simp [durationsOf] at h; subst h; simp
    | cons r rs2 =>
      by_cases hr : r = 0
      · simp [durationsOf, hr] at h
      · simp only [durationsOf, if_neg hr] at h
        rcases hds : durationsOf cs rs2 with e | l2
        · rw [hds] at h
          have h2 : (Except.error e : Except PyErr (List ℚ)) = .ok ls := h
          exact Except.noConfusion h2
        · rw [hds] at h
          have h2 : Except.ok (pyDivQ ((c.2.length : ℚ)) r :: l2) = Except.ok ls := h
          rw [Except.ok.injEq] at h2
          have hlen := ih rs2 l2 hds
          simp only [← h2, List.length_cons, hlen]
          omega

/-- Inserting a key absent from the accumulating dict appends it. -/
theorem dinsert_fresh (acc : List (String × TS)) (c : String) (v : TS)
    (h : acc.lookup c = none) : dinsert acc c v = acc ++ [(c, v)] := by
  induction acc with
  | nil => rfl
  | cons p rest ih =>
    obtain ⟨k0, v0⟩ := p
    by_cases hk : k0 = c
    · exfalso
      have hb : (c == k0) = true := beq_iff_eq.mpr hk.symm
      rw [List.lookup_cons] at h
      rw [hb] at h
      simp at h
    · have hb : (c == k0) = false := beq_eq_false_iff_ne.mpr (fun he => hk he.symm)
      have h2 : rest.lookup c = none := by
        rw [List.lookup_cons] at h
        rw [hb] at h
        exact h
      simp [dinsert, hk, ih h2]

/-- Looking a key up past a first block that does not contain it. -/
theorem lookup_append_none {β : Type _} (l1 l2 : List (String × β)) (c : String)
    (h1 : l1.lookup c = none) : (l1 ++ l2).lookup c = l2.lookup c := by
  induction l1 with
  | nil => rfl
  | cons p rest ih =>
    obtain ⟨k0, v0⟩ := p
    rw [List.lookup_cons] at h1
    rcases hb : (c == k0) with - | -
    · rw [hb] at h1
      rw [List.cons_append, List.lookup_cons, hb]
      exact ih h1
    · rw [hb] at h1
      simp at h1

/-- The reader loop succeeds on distinct requests that are all present,
returning one reconstructed series per request in request order. -/
theorem readGo_ok (file : H5File) (t0 : PyNum) (req : List String) :
    ∀ (acc : List (String × TS)),
    (∀ c ∈ req, (file.datasets.lookup c).isSome) →
    (∀ c ∈ req, acc.lookup c = none) →
    req.Nodup →
    readGo file t0 acc req =
      .ok (acc ++ req.map (fun c => (c, tsOfD file.datasets t0 c))) := by
  induction req with
  | nil =>
    intro acc _ _ _
    simp [readGo]
  | cons c cs ih =>
    intro acc hsome hfresh hnd
    rcases hl : file.datasets.lookup c with - | d
    · exact absurd (hsome c (List.mem_cons_self _ _)) (by rw [hl]; simp)
    · have hins := dinsert_fresh acc c ⟨d.data, t0, d.sampleRate⟩
        (hfresh c (List.mem_cons_self _ _))
      have hfresh2 : ∀ x ∈ cs,
          (acc ++ [(c, (⟨d.data, t0, d.sampleRate⟩ : TS))]).lookup x = none := by
        intro x hx
        have hxc : x ≠ c := by
          rintro rfl
          exact (List.nodup_cons.mp hnd).1 hx
        rw [lookup_append_none _ _ _ (hfresh x (List.mem_cons.mpr (Or.inr hx)))]
        rw [List.lookup_cons]
        rw [beq_eq_false_iff_ne.mpr hxc]
        rfl
      simp only [readGo, hl, hins]
      rw [ih _ (fun x hx => hsome x (List.mem_cons.mpr (Or.inr hx))) hfresh2
        (List.nodup_cons.mp hnd).2]
      simp [tsOfD, hl]

/-- Every written channel key is present in the written dataset list. -/
theorem mkFile_lookup_isSome :
    ∀ (chs : List (String × List ℚ)) (rs : List ℚ), rs.length = chs.length →
    ∀ x ∈ chs.map Prod.fst,
      (((chs.zip rs).map
        (fun p => (p.1.1, (⟨p.1.2, p.2⟩ : H5Dataset)))).lookup x).isSome := by
  intro chs
  induction chs with
  | nil => intro rs _ x hx; simp at hx
  | cons c cs ih =>
    intro rs hlen x hx
    cases rs with
    | nil => simp at hlen
    | cons r rs2 =>
      simp only [List.zip_cons_cons, List.map_cons, List.map_cons] at hx ⊢
      rcases List.mem_cons.mp hx with rfl | hx2
      · rw [List.lookup_cons, beq_iff_eq.mpr rfl]
        rfl
      · rw [List.lookup_cons]
        rcases hb : (x == c.1) with - | -
        · exact ih rs2 (by simpa using hlen) x hx2
        · rfl

/-- Reconstructing each written channel from the written dataset list gives
back the original samples, the written start time and the channel's own
rate. -/
theorem tsOfD_map_eq (t0q : PyNum) :
    ∀ (chs : List (String × List ℚ)) (rs : List ℚ), rs.length = chs.length →
    (chs.map Prod.fst).Nodup →
    (chs.map Prod.fst).map
        (fun c => (c, tsOfD ((chs.zip rs).map
          (fun p => (p.1.1, (⟨p.1.2, p.2⟩ : H5Dataset)))) t0q c))
      = List.zipWith (fun c r => (c.1, TS.mk c.2 t0q r)) chs rs := by
  intro chs
  induction chs with
  | nil => intro rs _ _; simp
  | cons c cs ih =>
    intro rs hlen hnd
    cases rs with
    | nil => simp at hlen
    | cons r rs2 =>
      have hkey : ∀ x ∈ cs.map Prod.fst, x ≠ c.1 := by
        intro x hx
        rintro rfl
        exact (List.nodup_cons.mp hnd).1 hx
      simp only [List.map_cons, List.zip_cons_cons, List.zipWith_cons_cons]
      congr 1
      · simp [tsOfD, List.lookup_cons, beq_iff_eq.mpr rfl]
      · have hcongr : ∀ x ∈ cs.map Prod.fst,
            (fun c2 => (c2, tsOfD ((c.1, (⟨c.2, r⟩ : H5Dataset)) ::
              (cs.zip rs2).map (fun p => (p.1.1, (⟨p.1.2, p.2⟩ : H5Dataset)))) t0q c2)) x
            = (fun c2 => (c2, tsOfD ((cs.zip rs2).map
              (fun p => (p.1.1, (⟨p.1.2, p.2⟩ : H5Dataset)))) t0q c2)) x := by
          intro x hx
          simp only [tsOfD, List.lookup_cons]
          rw [beq_eq_false_iff_ne.mpr (hkey x hx)]
        rw [List.map_congr_left hcongr]
        exact ih rs2 (by simpa using hlen) (List.nodup_cons.mp hnd).2

/-! ### Order properties of the sorter comparison -/

theorem clLt_cons_iff (a b : Char) (as bs : List Char) :
    clLt (a :: as) (b :: bs) = true ↔
      a.toNat < b.toNat ∨ (a.toNat = b.toNat ∧ clLt as bs = true) := by
  simp only [clLt]
  split_ifs <;> simp_all

theorem clLt_trans (a : List Char) :
    ∀ (b c : List Char), clLt a b = true → clLt b c = true → clLt a c = true := by
  induction a with
  | nil =>
    intro b c h1 h2
    cases b with
    | nil => simp [clLt] at h1
    | cons y ys =>
      cases c with
      | nil => simp [clLt] at h2
      | cons z zs => simp [clLt]
  | cons x xs ih =>
    intro b c h1 h2
    cases b with
    | nil => simp [clLt] at h1
    | cons y ys =>
      cases c with
      | nil => simp [clLt] at h2
      | cons z zs =>
        rw [clLt_cons_iff] at h1 h2 ⊢
        rcases h1 with h1 | ⟨he1, h1⟩
        · rcases h2 with h2 | ⟨he2, h2⟩
          · exact Or.inl (lt_trans h1 h2)
          · exact Or.inl (by rw [← he2]; exact h1)
        · rcases h2 with h2 | ⟨he2, h2⟩
          · exact Or.inl (by rw [he1]; exact h2)
          · exact Or.inr ⟨he1.trans he2, ih ys zs h1 h2⟩

theorem clLt_conn (a : List Char) :
    ∀ (b : List Char), clLt a b = false → clLt b a = false → a = b := by
  induction a with
  | nil =>
    intro b h1 _
    cases b with
    | nil => rfl
    | cons y ys => simp [clLt] at h1
  | cons x xs ih =>
    intro b h1 h2
    cases b with
    | nil => simp [clLt] at h2
    | cons y ys =>
      have h1b := (clLt_cons_iff x y xs ys).not.mp (by simp [h1])
      have h2b := (clLt_cons_iff y x ys xs).not.mp (by simp [h2])
      push_neg at h1b h2b
      have hxy : x.toNat = y.toNat := by omega
      have hx : x = y := by
        have hofx := Char.ofNat_toNat x
        rw [hxy, Char.ofNat_toNat y] at hofx
        exact hofx.symm
      subst hx
      have hxs : clLt xs ys = false := by
        rcases hcl : clLt xs ys with - | -
        · rfl
        · exact absurd hcl (by simpa using h1b.2 rfl)
      have hys : clLt ys xs = false := by
        rcases hcl : clLt ys xs with - | -
        · rfl
        · exact absurd hcl (by simpa using h2b.2 rfl)
      rw [ih ys hxs hys]

/-- The two-component lexicographic preorder the sort realizes. -/
theorem keyLe_iff (x y : Tup) : TupLe x y ↔
    (clLt x.1.toList y.1.toList = true ∨
      (x.1.toList = y.1.toList ∧
        (clLt x.2.1.cmpStr.toList y.2.1.cmpStr.toList = true ∨
          x.2.1.cmpStr.toList = y.2.1.cmpStr.toList))) := by
  unfold TupLe keyLe clLe
  simp [Bool.or_eq_true, Bool.and_eq_true, decide_eq_true_iff]

instance : IsTotal Tup TupLe := by
  constructor
  intro a b
  rw [keyLe_iff, keyLe_iff]
  rcases hab : clLt a.1.toList b.1.toList with - | -
  · rcases hba : clLt b.1.toList a.1.toList with - | -
    · have heq := clLt_conn _ _ hab hba
      rcases hcd : clLt a.2.1.cmpStr.toList b.2.1.cmpStr.toList with - | -
      · rcases hdc : clLt b.2.1.cmpStr.toList a.2.1.cmpStr.toList with - | -
        · exact Or.inl (Or.inr ⟨heq, Or.inr (clLt_conn _ _ hcd hdc)⟩)
        · exact Or.inr (Or.inr ⟨heq.symm, Or.inl rfl⟩)
      · exact Or.inl (Or.inr ⟨heq, Or.inl rfl⟩)
    · exact Or.inr (Or.inl rfl)
  · exact Or.inl (Or.inl rfl)

instance : IsTrans Tup TupLe := by
  constructor
  intro a b c h1 h2
  rw [keyLe_iff] at h1 h2 ⊢
  rcases h1 with h1 | ⟨he1, h1⟩
  · rcases h2 with h2 | ⟨he2, h2⟩
    · exact Or.inl (clLt_trans _ _ _ h1 h2)
    · exact Or.inl (by rw [← he2]; exact h1)
  · rcases h2 with h2 | ⟨he2, h2⟩
    · exact Or.inl (by rw [he1]; exact h2)
    · refine Or.inr ⟨he1.trans he2, ?_⟩
      rcases h1 with h1 | h1
      · rcases h2 with h2 | h2
        · exact Or.inl (clLt_trans _ _ _ h1 h2)
        · exact Or.inl (by rw [← h2]; exact h1)
      · rcases h2 with h2 | h2
        · exact Or.inl (by rw [h1]; exact h2)
        · exact Or.inr (h1.trans h2)

/-! ### Numeric value of fixed-width digit strings -/

theorem valD_lt_pow (l : List Char) (h : l.all Char.isDigit = true) :
    valD l < 10 ^ l.length := by
  induction l with
  | nil => simp [valD]
  | cons c cs ih =>
    rw [List.all_cons, Bool.and_eq_true] at h
    have hc : 48 ≤ c.toNat ∧ c.toNat ≤ 57 := by
      have := h.1
      simp [Char.isDigit] at this
      exact this
    have hcs := ih h.2
    have hd9 : c.toNat - 48 ≤ 9 := by omega
    simp only [valD, List.length_cons, pow_succ]
    calc (c.toNat - 48) * 10 ^ cs.length + valD cs
        < (c.toNat - 48) * 10 ^ cs.length + 10 ^ cs.length := by omega
      _ = (c.toNat - 48 + 1) * 10 ^ cs.length := by ring
      _ ≤ 10 * 10 ^ cs.length := by
          apply Nat.mul_le_mul_right
          omega
      _ = 10 ^ cs.length * 10 := by ring

theorem valD_lt_of_clLt (a : List Char) :
    ∀ (b : List Char), a.length = b.length →
      a.all Char.isDigit = true → b.all Char.isDigit = true →
      clLt a b = true → valD a < valD b := by
  induction a with
  | nil =>
    intro b hlen _ _ hlt
    cases b with
    | nil => simp [clLt] at hlt
    | cons y ys => simp at hlen
  | cons x xs ih =>
    intro b hlen ha hb hlt
    cases b with
    | nil => simp at hlen
    | cons y ys =>
      rw [List.all_cons, Bool.and_eq_true] at ha hb
      have hlen2 : xs.length = ys.length := by simpa using hlen
      rw [clLt_cons_iff] at hlt
      simp only [valD, hlen2]
      rcases hlt with hlt | ⟨heq, hlt⟩
      · have hxa := valD_lt_pow xs ha.2
        rw [hlen2] at hxa
        have : x.toNat - 48 + 1 ≤ y.toNat - 48 := by
          have hdx : 48 ≤ x.toNat ∧ x.toNat ≤ 57 := by
            have := ha.1
            simp [Char.isDigit] at this
            exact this
          have hdy : 48 ≤ y.toNat ∧ y.toNat ≤ 57 := by
            have := hb.1
            simp [Char.isDigit] at this
            exact this
          omega
        calc (x.toNat - 48) * 10 ^ ys.length + valD xs
            < (x.toNat - 48) * 10 ^ ys.length + 10 ^ ys.length := by omega
          _ = (x.toNat - 48 + 1) * 10 ^ ys.length := by ring
          _ ≤ (y.toNat - 48) * 10 ^ ys.length := Nat.mul_le_mul_right _ this
          _ ≤ (y.toNat - 48) * 10 ^ ys.length + valD ys := Nat.le_add_right _ _
      · rw [heq]
        have := ih ys hlen2 ha.2 hb.2 hlt
        omega

/-! ### The t0 group of every match is a fixed-width digit string -/

theorem t0Match_shape (l : List Char) (t le su : String)
    (h : t0Match l = some (t, le, su)) :
    t.toList.length = 10 ∧ t.toList.all Char.isDigit = true := by
  unfold t0Match at h
  by_cases hg : (l.take 10).length = 10 ∧ (l.take 10).all Char.isDigit = true
  · rw [if_pos hg] at h
    split at h
    · rw [Option.map_eq_some'] at h
      obtain ⟨p, -, heq⟩ := h
      cases heq
      exact hg
    · simp at h
  · rw [if_neg hg] at h
    simp at h

theorem afterPfx_shape (l : List Char) (t le su : String)
    (h : afterPfx l = some (t, le, su)) :
    t.toList.length = 10 ∧ t.toList.all Char.isDigit = true := by
  unfold afterPfx at h
  split at h
  · exact t0Match_shape _ _ _ _ h
  · simp at h

theorem pfxTry_shape (l : List Char) :
    ∀ (j : ℕ) (m : FMatch), pfxTry l j = some m →
      m.t0G.toList.length = 10 ∧ m.t0G.toList.all Char.isDigit = true := by
  intro j
  induction j with
  | zero =>
    intro m h
    simp [pfxTry] at h
  | succ j ih =>
    intro m h
    rcases ha : afterPfx (l.drop (j + 1)) with - | ⟨t, le, su⟩
    · rw [pfxTry, ha] at h
      exact ih m h
    · rw [pfxTry, ha] at h
      rw [Option.some.injEq] at h
      have hshape := afterPfx_shape _ _ _ _ ha
      rw [← h]
      exact hshape

theorem matchHere_shape (l : List Char) (m : FMatch) (h : matchHere l = some m) :
    m.t0G.toList.length = 10 ∧ m.t0G.toList.all Char.isDigit = true :=
  pfxTry_shape l _ m h

theorem searchFrom_shape (l : List Char) :
    ∀ (m : FMatch), searchFrom l = some m →
      m.t0G.toList.length = 10 ∧ m.t0G.toList.all Char.isDigit = true := by
  induction l with
  | nil =>
    intro m h
    simp [searchFrom] at h
  | cons c rest ih =>
    intro m h
    rw [searchFrom] at h
    rcases hm : matchHere (c :: rest) with - | m2
    · rw [hm] at h
      simp only [Option.none_orElse] at h
      exact ih m h
    · rw [hm] at h
      simp only [Option.some_orElse, Option.some.injEq] at h
      rw [← h]
      exact matchHere_shape _ _ hm

theorem fnameSearch_shape (s : String) (m : FMatch) (h : fnameSearch s = some m) :
    m.t0G.toList.length = 10 ∧ m.t0G.toList.all Char.isDigit = true :=
  searchFrom_shape _ m h

/-! ### Structure of the sorter tuple list on all-string input -/

theorem core_str (fnames : List Ident) (h : fnames.all Ident.isStr = true) :
    filter_and_sort_core fnames
      = sortTups (mkTups (fnames.map (fun f => (pyBaseName f.raw, f)))) := by
  unfold filter_and_sort_core
  by_cases hp : fnames.all Ident.isPath = true
  · rw [if_pos hp]
  · rw [if_neg hp, if_neg (by simp [h])]

theorem mkTups_strs (l : List String) :
    mkTups ((l.map Ident.str).map (fun f => (pyBaseName f.raw, f)))
      = l.filterMap (fun s => (fnameSearch (pyBaseName s)).map
          (fun m => (m.t0G, Ident.str s, m))) := by
  simp only [mkTups, List.map_map, List.filterMap_map]
  rfl

theorem tups_proj (l : List String) :
    (l.filterMap (fun s => (fnameSearch (pyBaseName s)).map
        (fun m => (m.t0G, Ident.str s, m)))).map (fun t => t.2.1)
      = (l.filter (fun s => (fnameSearch (pyBaseName s)).isSome)).map Ident.str := by
  induction l with
  | nil => rfl
  | cons s rest ih =>
    rcases hs : fnameSearch (pyBaseName s) with - | m
    · simp [List.filterMap_cons, List.filter_cons, hs, ih]
    · simp [List.filterMap_cons, List.filter_cons, hs, ih]

theorem tups_inv (l : List String) :
    ∀ t ∈ l.filterMap (fun s => (fnameSearch (pyBaseName s)).map
        (fun m => (m.t0G, Ident.str s, m))),
      fnameSearch (pyBaseName t.2.1.raw) = some t.2.2 ∧ t.1 = t.2.2.t0G := by
  intro t ht
  rw [List.mem_filterMap] at ht
  obtain ⟨s, -, hF⟩ := ht
  rcases hm : fnameSearch (pyBaseName s) with - | m
  · rw [hm] at hF
    simp at hF
  · rw [hm] at hF
    rw [Option.map_eq_some'] at hF
    obtain ⟨m2, hm2, heq⟩ := hF
    rw [Option.some.injEq] at hm2
    cases heq
    cases hm2
    exact ⟨hm, rfl⟩

/-! ### Completeness of the matcher on well-formed archive base names -/

theorem anyDot_hdf5 : anyDot ['.', 'h', 'd', 'f', '5'] = some "hdf5" := rfl

theorem lenMatch_exact (c : Char) (ds : List Char) (hc : c.isDigit = true)
    (hc0 : c ≠ '0') (hds : ds.all Char.isDigit = true) (hdlen : ds.length ≤ 3) :
    lenMatch ((c :: ds) ++ '.' :: "hdf5".toList)
      = some (String.mk (c :: ds), "hdf5") := by
  match ds, hdlen with
  | [], _ =>
    simp only [List.nil_append, List.cons_append, lenMatch, if_pos (And.intro hc hc0)]
    rfl
  | [d1], _ =>
    simp only [List.all_cons, List.all_nil, Bool.and_true, Bool.and_eq_true] at hds
    simp only [List.cons_append, List.nil_append, lenMatch,
      if_pos (And.intro hc hc0)]
    simp [lenTryK, hds, anyDot_hdf5]
  | [d1, d2], _ =>
    simp only [List.all_cons, List.all_nil, Bool.and_true, Bool.and_eq_true] at hds
    simp only [List.cons_append, List.nil_append, lenMatch,
      if_pos (And.intro hc hc0)]
    simp [lenTryK, hds.1, hds.2, anyDot_hdf5]
  | [d1, d2, d3], _ =>
    simp only [List.all_cons, List.all_nil, Bool.and_true, Bool.and_eq_true] at hds
    simp only [List.cons_append, List.nil_append, lenMatch,
      if_pos (And.intro hc hc0)]
    simp [lenTryK, hds.1, hds.2.1, hds.2.2, anyDot_hdf5]

theorem t0Match_mk (t0l rest : List Char) (hlen : t0l.length = 10)
    (hdig : t0l.all Char.isDigit = true) (hrest : (lenMatch rest).isSome = true) :
    (t0Match (t0l ++ '-' :: rest)).isSome = true := by
  unfold t0Match
  rw [List.take_left' hlen, List.drop_left' hlen]
  rw [if_pos (And.intro hlen hdig)]
  obtain ⟨p, hp⟩ := Option.isSome_iff_exists.mp hrest
  show ((lenMatch rest).map (fun p => (String.mk t0l, p.1, p.2))).isSome = true
  rw [hp]
  rfl

theorem pfxTry_isSome (l : List Char) :
    ∀ (J j : ℕ), 1 ≤ j → j ≤ J → (afterPfx (l.drop j)).isSome = true →
      (pfxTry l J).isSome = true := by
  intro J
  induction J with
  | zero =>
    intro j h1 hj _
    omega
  | succ J ih =>
    intro j h1 hj hsome
    by_cases hjJ : j = J + 1
    · subst hjJ
      rw [pfxTry]
      obtain ⟨p, hp⟩ := Option.isSome_iff_exists.mp hsome
      obtain ⟨t, le, su⟩ := p
      rw [hp]
      rfl
    · rw [pfxTry]
      rcases ha : afterPfx (l.drop (J + 1)) with - | ⟨t, le, su⟩
      · exact ih j h1 (by omega) hsome
      · rfl

theorem takeWhile_len_ge (xs ys : List Char) (h : xs.all isPfxChar = true) :
    xs.length ≤ ((xs ++ ys).takeWhile isPfxChar).length := by
  induction xs with
  | nil => simp
  | cons x xs2 ih =>
    rw [List.all_cons, Bool.and_eq_true] at h
    rw [List.cons_append, List.takeWhile_cons, if_pos h.1]
    simpa using ih h.2

theorem matchHere_isSome (pfxl rest : List Char) (hne : pfxl ≠ [])
    (hcls : pfxl.all isPfxChar = true) (hs : (afterPfx rest).isSome = true) :
    (matchHere (pfxl ++ rest)).isSome = true := by
  unfold matchHere
  apply pfxTry_isSome _ _ pfxl.length
  · exact List.length_pos.mpr hne
  · exact takeWhile_len_ge pfxl rest hcls
  · rw [List.drop_left]
    exact hs

theorem searchFrom_isSome_of_head (l : List Char) (hne : l ≠ [])
    (h : (matchHere l).isSome = true) : (searchFrom l).isSome = true := by
  obtain ⟨c, rest, rfl⟩ := List.exists_cons_of_ne_nil hne
  rw [searchFrom]
  obtain ⟨m, hm⟩ := Option.isSome_iff_exists.mp h
  rw [hm]
  rfl

theorem fnameSearch_wf (pfxl t0l : List Char) (c : Char) (ds : List Char)
    (hpne : pfxl ≠ []) (hpcls : pfxl.all isPfxChar = true)
    (ht0len : t0l.length = 10) (ht0dig : t0l.all Char.isDigit = true)
    (hc : c.isDigit = true) (hc0 : c ≠ '0')
    (hds : ds.all Char.isDigit = true) (hdlen : ds.length ≤ 3) :
    (fnameSearch (String.mk
      (pfxl ++ '-' :: (t0l ++ '-' :: ((c :: ds) ++ '.' :: "hdf5".toList))))).isSome
      = true := by
  unfold fnameSearch
  show (searchFrom
    (pfxl ++ '-' :: (t0l ++ '-' :: ((c :: ds) ++ '.' :: "hdf5".toList)))).isSome = true
  apply searchFrom_isSome_of_head
  · intro hnil
    exact hpne (List.append_eq_nil.mp hnil).1
  · apply matchHere_isSome _ _ hpne hpcls
    show (t0Match (t0l ++ '-' :: ((c :: ds) ++ '.' :: "hdf5".toList))).isSome = true
    apply t0Match_mk _ _ ht0len ht0dig
    rw [lenMatch_exact c ds hc hc0 hds hdlen]
    rfl

/-! ### Base-name identity and sorter membership -/

theorem splitSlash_noslash (l : List Char) (h : ∀ ch ∈ l, ch ≠ '/') :
    splitSlash l = [l] := by
  induction l with
  | nil => rfl
  | cons ch rest ih =>
    have hch : ch ≠ '/' := h ch (List.mem_cons_self _ _)
    have hrest := ih (fun x hx => h x (List.mem_cons.mpr (Or.inr hx)))
    rw [splitSlash]
    simp only [hrest, if_neg hch]

/-- `Path(s).name` is `s` itself for a slash-free, nonempty, non-dot name. -/
theorem pyBaseName_id (s : String) (h1 : ∀ ch ∈ s.toList, ch ≠ '/')
    (h2 : s.toList ≠ []) (h3 : s.toList ≠ ['.']) : pyBaseName s = s := by
  unfold pyBaseName pathComps
  rw [splitSlash_noslash _ h1]
  rw [List.filter_cons, if_pos (by simpa using And.intro h2 h3)]
  rfl

/-- Inverting a successful sort: it took a homogeneous branch and sorted the
tuple list. -/
theorem core_ok_inv (li : List Ident) (ts : List Tup)
    (h : filter_and_sort_core li = .ok ts) :
    ts = (mkTups (li.map (fun f => (pyBaseName f.raw, f)))).insertionSort TupLe := by
  unfold filter_and_sort_core at h
  by_cases h1 : li.all Ident.isPath = true
  · rw [if_pos h1] at h
    unfold sortTups at h
    by_cases h2 : ((mkTups (li.map (fun f => (pyBaseName f.raw, f)))).map keyOf).Nodup
    · rw [if_pos h2] at h
      exact (Except.ok.inj h).symm
    · rw [if_neg h2] at h
      exact absurd h (by simp)
  · rw [if_neg h1] at h
    by_cases h2 : li.all Ident.isStr = true
    · rw [if_neg (by simp [h2])] at h
      unfold sortTups at h
      by_cases h3 : ((mkTups (li.map (fun f => (pyBaseName f.raw, f)))).map keyOf).Nodup
      · rw [if_pos h3] at h
        exact (Except.ok.inj h).symm
      · rw [if_neg h3] at h
        exact absurd h (by simp)
    · rw [if_pos (by simp [h2])] at h
      exact absurd h (by simp)

/-- A matching member of the input collection appears in a successful sort
output, wherever it sat in the input. -/
theorem sort_mem (li : List Ident) (out : List Ident) (x : Ident)
    (hx : x ∈ li) (hm : matchesB x = true)
    (hok : filter_and_sort_files li = .ok out) : x ∈ out := by
  unfold filter_and_sort_files at hok
  rcases hcore : filter_and_sort_core li with e | ts
  · rw [hcore] at hok
    exact absurd hok (by simp [Except.map])
  · rw [hcore] at hok
    have hts := core_ok_inv li ts hcore
    have hout : out = ts.map (fun t => t.2.1) := by
      simp only [Except.map, Except.ok.injEq] at hok
      exact hok.symm
    subst hout
    unfold matchesB at hm
    obtain ⟨m, hm2⟩ := Option.isSome_iff_exists.mp hm
    have htup : ((m.t0G, x, m) : Tup)
        ∈ mkTups (li.map (fun f => (pyBaseName f.raw, f))) := by
      unfold mkTups
      rw [List.mem_filterMap]
      refine ⟨(pyBaseName x.raw, x), List.mem_map.mpr ⟨x, hx, rfl⟩, ?_⟩
      rw [hm2]
      rfl
    have hmem : ((m.t0G, x, m) : Tup) ∈ ts := by
      rw [hts]
      exact (List.perm_insertionSort TupLe _).mem_iff.mpr htup
    exact List.mem_map.mpr ⟨(m.t0G, x, m), hmem, rfl⟩

/-! ### Sanity checks of the embedding on concrete values -/

example : fnameSearch "H1-1234567890-4096.hdf5" =
    some ⟨"H1", "1234567890", "4096", "hdf5"⟩ := by decide

example : fnameSearch "a_b:c-0123456789-1.gwf" =
    some ⟨"a_b:c", "0123456789", "1", "gwf"⟩ := by decide

example : fnameSearch "x-1234567890-0.h5" = none := by decide

example : filter_and_sort_files
    [.str "b-1234567891-1.h5", .str "nomatch", .str "a-1234567890-2.hdf5"] =
    .ok [.str "a-1234567890-2.hdf5", .str "b-1234567891-1.h5"] := by decide

example : read_timeseries ⟨some (.float 5), [("a", ⟨[1, 2], 4⟩)]⟩ "d.h5" ["a"] =
    .ok [("a", ⟨[1, 2], .float 5, 4⟩)] := by decide

example : write_timeseries (.int 1234567890) (.list [1, 2]) "H1"
      [("a", [0, 0]), ("b", [0, 0, 0, 0])] =
    .ok ("H1-1234567890-2.hdf5",
      ⟨some (.int 1234567890), [("a", ⟨[0, 0], 1⟩), ("b", ⟨[0, 0, 0, 0], 2⟩)]⟩) := by
  decide

/-! ### Claim theorems -/

/-- C7: for every write call given a per-channel sample-rate list whose
length differs from the number of channels, the write fails with the
cardinality `ValueError` reporting both the number of sample rates provided
and the number of channels, before any file is created (the model returns no
file on any error). -/
theorem C7_cardinality (t0 : PyNum) (pfx : String) (chs : List (String × List ℚ))
    (rs : List ℚ) (h : rs.length ≠ chs.length) :
    write_timeseries t0 (.list rs) pfx chs =
      .error (.valueError ("Only " ++ pyNatStr rs.length
        ++ " sample rates provided for " ++ pyNatStr chs.length ++ " channels")) := by
  simp only [write_timeseries, writeChecked]
  rw [if_pos h]

/-- Witness for C7 at a concrete input: one rate for two channels. -/
theorem C7_cardinality_witness :
    write_timeseries (.int 0) (.list [1]) "p" [("a", [0]), ("b", [0])] =
      .error (.valueError "Only 1 sample rates provided for 2 channels") :=
  C7_cardinality (.int 0) "p" [("a", [0]), ("b", [0])] [1] (by decide)

/-- C8: the length field of the output filename is the integer coercion of
the common duration exactly when the duration has zero fractional part
(denominator one as an exact rational), and the unchanged fractional value
otherwise. -/
theorem C8_length_normalization (q : ℚ) :
    normalizeLength q = if q.den = 1 then PyNum.int q.num else PyNum.float q := by
  unfold normalizeLength pyTruncQ
  by_cases h : q.den = 1
  · have hq : (q.num : ℚ) = q := (Rat.den_eq_one_iff q).mp h
    rw [if_pos h, h]
    simp [Int.tdiv_one, hq]
  · have hne : ((q.num.tdiv (q.den : ℤ) : ℤ) : ℚ) ≠ q := by
      intro hc
      exact h (by rw [← hc]; exact Rat.den_intCast _)
    rw [if_neg h, if_neg hne]

/-- C9: a write call with an empty channel mapping and a sample-rate
specification consistent with zero channels (a scalar float, which
broadcasts to an empty list, or an empty list) always fails at the
duration-consistency check and creates no file. -/
theorem C9_empty_channels (t0 : PyNum) (pfx : String) (spec : SRSpec)
    (h : (∃ r, spec = .float r) ∨ spec = .list []) :
    write_timeseries t0 spec pfx [] =
      .error (.valueError "Duration of datasets must all be equal") := by
  rcases h with ⟨r, rfl⟩ | rfl <;> rfl

/-- Witness for C9 at a concrete input: scalar float rate, no channels. -/
theorem C9_empty_channels_witness :
    write_timeseries (.int 0) (.float 1) "p" [] =
      .error (.valueError "Duration of datasets must all be equal") :=
  C9_empty_channels (.int 0) "p" (.float 1) (Or.inl ⟨1, rfl⟩)

/-- C10: the scalar-broadcast rule applies only to exact floats: a single
int sample rate is not broadcast, and the call fails with a `TypeError`
when the cardinality validation takes `len(sample_rate)`. -/
theorem C10_int_rate_not_broadcast (t0 : PyNum) (pfx : String)
    (chs : List (String × List ℚ)) (n : ℤ) :
    write_timeseries t0 (.int n) pfx chs =
      .error (.typeError "object of type int has no len()") := rfl

/-- C6: for a write call with nonempty channels and a cardinality-matching
per-channel rate list (of nonzero rates, so the divisions are defined): if
the per-channel durations `len(samples) / rate` are not all equal the write
fails with the duration `ValueError` (and, the result being an error, no
file is produced); if they are all equal — including differing rates with
correspondingly differing sample counts — the duration check passes and the
write returns a file. -/
theorem C6_duration_validation (t0 : PyNum) (pfx : String)
    (chs : List (String × List ℚ)) (rs : List ℚ)
    (hne : chs ≠ []) (hcard : rs.length = chs.length) (hnz : ∀ r ∈ rs, r ≠ 0) :
    (¬ (List.zipWith (fun c r => ((c.2.length : ℚ) / r)) chs rs).Pairwise (· = ·) →
        write_timeseries t0 (.list rs) pfx chs =
          .error (.valueError "Duration of datasets must all be equal"))
    ∧ ((List.zipWith (fun c r => ((c.2.length : ℚ) / r)) chs rs).Pairwise (· = ·) →
        ∃ res, write_timeseries t0 (.list rs) pfx chs = .ok res) := by
  have hcard2 : ¬ (rs.length ≠ chs.length) := by simp [hcard]
  have hdur := durationsOf_eq chs rs hnz
  have hdne : (List.zipWith (fun c r => ((c.2.length : ℚ) / r)) chs rs) ≠ [] := by
    apply List.ne_nil_of_length_pos
    rw [List.length_zipWith, hcard]
    simpa using List.length_pos.mpr hne
  have hiff := dedup_length_one_iff _ hdne
  constructor
  · intro hnp
    simp only [write_timeseries, writeChecked, if_neg hcard2, hdur]
    rw [if_neg (fun hc => hnp (hiff.mp hc))]
  · intro hp
    refine ⟨(mkFname pfx t0 (normalizeLength
      ((List.zipWith (fun c r => ((c.2.length : ℚ) / r)) chs rs).headD 0)),
      mkFile t0 chs rs), ?_⟩
    simp only [write_timeseries, writeChecked, if_neg hcard2, hdur]
    rw [if_pos (hiff.mpr hp)]

/-- Witness for C6: two samples at rate 1 (2 s) against one sample at rate 2
(0.5 s) — unequal durations fail the check. -/
theorem C6_duration_validation_witness :
    write_timeseries (.int 0) (.list [1, 2]) "p" [("a", [0, 0]), ("b", [0])] =
      .error (.valueError "Duration of datasets must all be equal") :=
  (C6_duration_validation (.int 0) "p" [("a", [0, 0]), ("b", [0])] [1, 2]
    (by decide) (by decide) (by decide)).1 (by
      simp only [List.zipWith_cons_cons, List.zipWith_nil_right, List.pairwise_cons]
      norm_num)

/-- C2: round-trip — for every valid (successful) write of a channel mapping
with distinct channel names, reading the written file back with the same
channel names returns, per channel and in request order, the same sample
sequence, the same per-channel sample rate, and a start time equal to the
`t0` passed to the write. -/
theorem C2_roundtrip (t0 : PyNum) (spec : SRSpec) (pfx : String)
    (chs : List (String × List ℚ)) (b : String) (f : H5File) (p : String)
    (hw : write_timeseries t0 spec pfx chs = .ok (b, f))
    (hnd : (chs.map Prod.fst).Nodup) :
    read_timeseries f p (chs.map Prod.fst) =
      .ok (List.zipWith (fun c r => (c.1, TS.mk c.2 t0 r)) chs
        (specRates spec chs.length)) := by
  have hwc : writeChecked t0 pfx chs (specRates spec chs.length) = .ok (b, f) := by
    cases spec with
    | float r => exact hw
    | list rs => exact hw
    | int n => exact absurd hw (by simp [write_timeseries])
  generalize hrs : specRates spec chs.length = rs at hwc ⊢
  unfold writeChecked at hwc
  by_cases hlen : rs.length ≠ chs.length
  · rw [if_pos hlen] at hwc
    exact absurd hwc (by simp)
  · rw [if_neg hlen] at hwc
    push_neg at hlen
    rcases hds : durationsOf chs rs with e | ls
    · rw [hds] at hwc
      exact absurd hwc (by simp)
    · rw [hds] at hwc
      have hwc2 : (if ls.dedup.length = 1 then
          Except.ok (mkFname pfx t0 (normalizeLength (ls.headD 0)), mkFile t0 chs rs)
          else Except.error (PyErr.valueError "Duration of datasets must all be equal"))
          = Except.ok (b, f) := hwc
      clear hwc
      by_cases hded : ls.dedup.length = 1
      · rw [if_pos hded] at hwc2
        rw [Except.ok.injEq] at hwc2
        have hf : f = mkFile t0 chs rs := ((Prod.ext_iff.mp hwc2).2).symm
        have hlsne : ls ≠ [] := by
          intro h0
          rw [h0] at hded
          simp at hded
        have hlslen := durationsOf_length chs rs ls hds
        have hchne : chs.length ≠ 0 := by
          intro h0
          apply hlsne
          rw [← List.length_eq_zero, hlslen, h0]
          simp
        subst hf
        simp only [read_timeseries, mkFile, if_neg hchne]
        rw [readGo_ok _ t0 (chs.map Prod.fst) []
          (by
            intro x hx
            exact mkFile_lookup_isSome chs rs hlen x hx)
          (by intro x _; rfl) hnd]
        rw [List.nil_append]
        rw [Except.ok.injEq]
        exact tsOfD_map_eq t0 chs rs hlen hnd
      · rw [if_neg hded] at hwc2
        exact absurd hwc2 (by simp)

/-- Witness for C2: two channels with different rates and equal durations,
written and read back. -/
theorem C2_roundtrip_witness :
    read_timeseries
        ⟨some (.int 1234567890),
          [("a", ⟨[5, 6], 1⟩), ("b", ⟨[7, 8, 9, 10], 2⟩)]⟩ "q.h5" ["a", "b"] =
      .ok [("a", ⟨[5, 6], .int 1234567890, 1⟩),
        ("b", ⟨[7, 8, 9, 10], .int 1234567890, 2⟩)] :=
  C2_roundtrip (.int 1234567890) (.list [1, 2]) "H1"
    [("a", [5, 6]), ("b", [7, 8, 9, 10])] "H1-1234567890-2.hdf5"
    ⟨some (.int 1234567890), [("a", ⟨[5, 6], 1⟩), ("b", ⟨[7, 8, 9, 10], 2⟩)]⟩
    "q.h5" (by decide) (by decide)

/-- C3 (counterexample): the claim quantifies over every collection of
filenames, but a collection containing the same grammar-matching filename
twice makes the sort compare two tuples that tie on `(t0, fname)`, so
Python compares the `re.Match` objects and raises `TypeError` — nothing is
returned at all. -/
theorem C3_sort_counterexample :
    filter_and_sort_files [.str "a-1234567890-1.h5", .str "a-1234567890-1.h5"] =
      .error (.typeError "not supported between instances of re.Match and re.Match") := by
  decide

/-- C3 (amended): for every collection of filenames in which no
grammar-matching filename occurs twice, the sort returns exactly the
grammar-matching elements (a permutation of the matching sublist), every
non-matching filename is absent, the output is ordered by the numeric value
of the embedded 10-digit t0 field, and strictly so when the matching t0
values are pairwise distinct. -/
theorem C3_sort_amended (l : List String)
    (hdup : (l.filter (fun s => (fnameSearch (pyBaseName s)).isSome)).Nodup) :
    ∃ out, filter_and_sort_files (l.map Ident.str) = .ok out ∧
      out.Perm ((l.map Ident.str).filter matchesB) ∧
      (∀ x ∈ out, matchesB x = true) ∧
      out.Pairwise (fun a b => t0NumOf a ≤ t0NumOf b) ∧
      ((∀ x ∈ (l.map Ident.str).filter matchesB,
          ∀ y ∈ (l.map Ident.str).filter matchesB,
          x ≠ y → t0NumOf x ≠ t0NumOf y) →
        out.Pairwise (fun a b => t0NumOf a < t0NumOf b)) := by
  have hall : (l.map Ident.str).all Ident.isStr = true := by
    simp [List.all_eq_true]
    intro s _
    rfl
  have hcore := core_str (l.map Ident.str) hall
  rw [mkTups_strs] at hcore
  have hcmpmap : ((l.filterMap (fun s => (fnameSearch (pyBaseName s)).map
      (fun m => (m.t0G, Ident.str s, m)))).map (fun t => t.2.1.cmpStr))
      = l.filter (fun s => (fnameSearch (pyBaseName s)).isSome) := by
    have h1 : (fun t : Tup => t.2.1.cmpStr)
        = (Ident.cmpStr ∘ fun t : Tup => t.2.1) := rfl
    rw [h1, ← List.map_map, tups_proj, List.map_map]
    exact List.map_id' _
  have hkeys : ((l.filterMap (fun s => (fnameSearch (pyBaseName s)).map
      (fun m => (m.t0G, Ident.str s, m)))).map keyOf).Nodup := by
    apply List.Nodup.of_map Prod.snd
    rw [List.map_map]
    have h2 : (Prod.snd ∘ keyOf) = fun t : Tup => t.2.1.cmpStr := rfl
    rw [h2, hcmpmap]
    exact hdup
  have hok : filter_and_sort_files (l.map Ident.str) =
      .ok (((l.filterMap (fun s => (fnameSearch (pyBaseName s)).map
        (fun m => (m.t0G, Ident.str s, m)))).insertionSort TupLe).map
          (fun t => t.2.1)) := by
    unfold filter_and_sort_files
    rw [hcore]
    unfold sortTups
    rw [if_pos hkeys]
    rfl
  have hpermT := List.perm_insertionSort TupLe
    (l.filterMap (fun s => (fnameSearch (pyBaseName s)).map
      (fun m => (m.t0G, Ident.str s, m))))
  have hperm : (((l.filterMap (fun s => (fnameSearch (pyBaseName s)).map
      (fun m => (m.t0G, Ident.str s, m)))).insertionSort TupLe).map
        (fun t => t.2.1)).Perm ((l.map Ident.str).filter matchesB) := by
    have hp2 := hpermT.map (fun t : Tup => t.2.1)
    rw [tups_proj] at hp2
    rw [List.filter_map]
    exact hp2
  have hinv : ∀ t ∈ (l.filterMap (fun s => (fnameSearch (pyBaseName s)).map
      (fun m => (m.t0G, Ident.str s, m)))).insertionSort TupLe,
      fnameSearch (pyBaseName t.2.1.raw) = some t.2.2 ∧ t.1 = t.2.2.t0G := by
    intro t ht
    exact tups_inv l t (hpermT.mem_iff.mp ht)
  have ht0 : ∀ t ∈ (l.filterMap (fun s => (fnameSearch (pyBaseName s)).map
      (fun m => (m.t0G, Ident.str s, m)))).insertionSort TupLe,
      t0NumOf t.2.1 = valD t.1.toList := by
    intro t ht
    obtain ⟨hm, he⟩ := hinv t ht
    unfold t0NumOf
    rw [hm, he]
  have hsortedP := List.sorted_insertionSort TupLe
    (l.filterMap (fun s => (fnameSearch (pyBaseName s)).map
      (fun m => (m.t0G, Ident.str s, m))))
  have hple : (((l.filterMap (fun s => (fnameSearch (pyBaseName s)).map
      (fun m => (m.t0G, Ident.str s, m)))).insertionSort TupLe).map
        (fun t => t.2.1)).Pairwise (fun a b => t0NumOf a ≤ t0NumOf b) := by
    rw [List.pairwise_map]
    apply hsortedP.imp_of_mem
    intro a b ha hb hab
    rw [ht0 a ha, ht0 b hb]
    rw [keyLe_iff] at hab
    obtain ⟨hlen_a, hdig_a⟩ := fnameSearch_shape _ _ (hinv a ha).1
    obtain ⟨hlen_b, hdig_b⟩ := fnameSearch_shape _ _ (hinv b hb).1
    have hea := (hinv a ha).2
    have heb := (hinv b hb).2
    rcases hab with hlt | ⟨heq, -⟩
    · apply le_of_lt
      apply valD_lt_of_clLt
      · rw [hea, heb, hlen_a, hlen_b]
      · rw [hea]; exact hdig_a
      · rw [heb]; exact hdig_b
      · exact hlt
    · rw [heq]
  refine ⟨_, hok, hperm, ?_, hple, ?_⟩
  · intro x hx
    exact (List.mem_filter.mp (hperm.mem_iff.mp hx)).2
  · intro hdist
    have hfiltnd : ((l.map Ident.str).filter matchesB).Nodup := by
      rw [List.filter_map]
      exact List.Nodup.map (fun a b hab => Ident.str.inj hab) hdup
    have hnodup_out := hperm.symm.nodup hfiltnd
    have hand := hple.and hnodup_out
    apply hand.imp_of_mem
    intro a b ha hb hr
    obtain ⟨hle, hne⟩ := hr
    exact lt_of_le_of_ne hle
      (hdist a (hperm.mem_iff.mp ha) b (hperm.mem_iff.mp hb) hne)

/-- Witness for C3 (amended) on a concrete collection with one non-matching
name and two matching names out of t0 order. -/
theorem C3_sort_amended_witness :
    ∃ out, filter_and_sort_files
        [Ident.str "b-1234567891-1.h5", Ident.str "nomatch",
          Ident.str "a-1234567890-2.hdf5"] = .ok out ∧
      out.Perm (([Ident.str "b-1234567891-1.h5", Ident.str "nomatch",
          Ident.str "a-1234567890-2.hdf5"] : List Ident).filter matchesB) ∧
      (∀ x ∈ out, matchesB x = true) ∧
      out.Pairwise (fun a b => t0NumOf a ≤ t0NumOf b) ∧
      ((∀ x ∈ ([Ident.str "b-1234567891-1.h5", Ident.str "nomatch",
            Ident.str "a-1234567890-2.hdf5"] : List Ident).filter matchesB,
          ∀ y ∈ ([Ident.str "b-1234567891-1.h5", Ident.str "nomatch",
            Ident.str "a-1234567890-2.hdf5"] : List Ident).filter matchesB,
          x ≠ y → t0NumOf x ≠ t0NumOf y) →
        out.Pairwise (fun a b => t0NumOf a < t0NumOf b)) :=
  C3_sort_amended ["b-1234567891-1.h5", "nomatch", "a-1234567890-2.hdf5"]
    (by decide)

theorem not_slash_of_digit {ch : Char} (h : ch.isDigit = true) : ch ≠ '/' :=
  fun he => by rw [he] at h; exact absurd h (by decide)

theorem not_slash_of_pfxChar {ch : Char} (h : isPfxChar ch = true) : ch ≠ '/' :=
  fun he => by rw [he] at h; exact absurd h (by decide)

/-- C1 (counterexample): a perfectly valid write call — nonempty channels,
broadcastable rate, grammar-conforming prefix — whose float `t0` is
formatted into the filename as `1000000000.0`.  The resulting base name
fails the `[0-9]{10}` t0 grammar, and a catalog sort over a collection
containing it silently drops it instead of including it. -/
theorem C1_filename_counterexample :
    write_timeseries (.float 1000000000) (.float 2) "H1"
        [("strain", List.replicate 20 0)] =
      .ok ("H1-1000000000.0-10.hdf5",
        ⟨some (.float 1000000000), [("strain", ⟨List.replicate 20 0, 2⟩)]⟩) ∧
    fnameSearch "H1-1000000000.0-10.hdf5" = none ∧
    filter_and_sort_files [.str "H1-1000000000.0-10.hdf5"] = .ok [] :=
  ⟨by decide, by decide, by decide⟩

/-- C1 (amended): when the write succeeds, `t0` is an int whose decimal
rendering is exactly ten digits, the prefix conforms to the prefix grammar,
and the normalized common duration renders as one to four digits with no
leading zero, the returned base name matches the segment filename grammar
and a subsequent catalog sort on any collection containing that base name
(that itself succeeds) includes it in its output. -/
theorem C1_filename_amended
    (n : ℤ) (spec : SRSpec) (pfx : String) (chs : List (String × List ℚ))
    (b : String) (f : H5File) (ls : List ℚ) (c : Char) (ds : List Char)
    (hw : write_timeseries (.int n) spec pfx chs = .ok (b, f))
    (hpne : pfx.toList ≠ []) (hpcls : pfx.toList.all isPfxChar = true)
    (ht0len : (pyIntStr n).toList.length = 10)
    (ht0dig : (pyIntStr n).toList.all Char.isDigit = true)
    (hls : durationsOf chs (specRates spec chs.length) = .ok ls)
    (hlenstr : (pyNumStr (normalizeLength (ls.headD 0))).toList = c :: ds)
    (hc : c.isDigit = true) (hc0 : c ≠ '0')
    (hds : ds.all Char.isDigit = true) (hdlen : ds.length ≤ 3) :
    (fnameSearch b).isSome = true ∧
      ∀ (li : List Ident) (out : List Ident), Ident.str b ∈ li →
        filter_and_sort_files li = .ok out → Ident.str b ∈ out := by
  have happ : ∀ s t : String, (s ++ t).toList = s.toList ++ t.toList :=
    fun s t => String.data_append s t
  have hwc : writeChecked (.int n) pfx chs (specRates spec chs.length)
      = .ok (b, f) := by
    cases spec with
    | float r => exact hw
    | list rs => exact hw
    | int k => exact absurd hw (by simp [write_timeseries])
  unfold writeChecked at hwc
  by_cases hlen : (specRates spec chs.length).length ≠ chs.length
  · rw [if_pos hlen] at hwc
    exact absurd hwc (by simp)
  · rw [if_neg hlen] at hwc
    rw [hls] at hwc
    have hwc2 : (if ls.dedup.length = 1 then
        Except.ok (mkFname pfx (.int n) (normalizeLength (ls.headD 0)),
          mkFile (.int n) chs (specRates spec chs.length))
        else Except.error (PyErr.valueError "Duration of datasets must all be equal"))
        = Except.ok (b, f) := hwc
    clear hwc
    by_cases hded : ls.dedup.length = 1
    · rw [if_pos hded] at hwc2
      rw [Except.ok.injEq] at hwc2
      have hb : b = mkFname pfx (.int n) (normalizeLength (ls.headD 0)) :=
        ((Prod.ext_iff.mp hwc2).1).symm
      have hbment : b = String.mk (pfx.toList ++ '-' :: ((pyIntStr n).toList
          ++ '-' :: ((c :: ds) ++ '.' :: "hdf5".toList))) := by
        rw [hb]
        apply String.ext
        show (pfx ++ "-" ++ pyNumStr (.int n)
            ++ "-" ++ pyNumStr (normalizeLength (ls.headD 0)) ++ ".hdf5").toList = _
        rw [happ, happ, happ, happ, hlenstr]
        rw [show pyNumStr (PyNum.int n) = pyIntStr n from rfl]
        rw [show ("-" : String).toList = ['-'] from rfl]
        rw [show (".hdf5" : String).toList = '.' :: "hdf5".toList from rfl]
        simp [List.append_assoc]
      have hsearch : (fnameSearch b).isSome = true := by
        rw [hbment]
        exact fnameSearch_wf pfx.toList (pyIntStr n).toList c ds
          hpne hpcls ht0len ht0dig hc hc0 hds hdlen
      have hb_toList : b.toList = pfx.toList ++ '-' :: ((pyIntStr n).toList
          ++ '-' :: ((c :: ds) ++ '.' :: "hdf5".toList)) := by
        rw [hbment]
        rfl
      have h1 : ∀ ch ∈ b.toList, ch ≠ '/' := by
        rw [hb_toList]
        intro ch hch
        simp only [List.mem_append, List.mem_cons] at hch
        rcases hch with hp | hch
        · exact not_slash_of_pfxChar (List.all_eq_true.mp hpcls ch hp)
        rcases hch with rfl | hch
        · decide
        rcases hch with ht | hch
        · exact not_slash_of_digit (List.all_eq_true.mp ht0dig ch ht)
        rcases hch with rfl | hch
        · decide
        rcases hch with hcd | hch
        · rcases hcd with rfl | hmem
          · exact not_slash_of_digit hc
          · exact not_slash_of_digit (List.all_eq_true.mp hds ch hmem)
        rcases hch with rfl | hch
        · decide
        · have : ch ∈ ['h', 'd', 'f', '5'] := hch
          fin_cases this <;> decide
      have h2 : b.toList ≠ [] := by
        rw [hb_toList]
        intro hnil
        exact hpne (List.append_eq_nil.mp hnil).1
      have h3 : b.toList ≠ ['.'] := by
        rw [hb_toList]
        intro heq
        have hlen1 := congrArg List.length heq
        have hp1 : 1 ≤ pfx.toList.length := List.length_pos.mpr hpne
        simp [List.length_append] at hlen1
        omega
      have hmB : matchesB (Ident.str b) = true := by
        unfold matchesB
        show (fnameSearch (pyBaseName b)).isSome = true
        rw [pyBaseName_id b h1 h2 h3]
        exact hsearch
      exact ⟨hsearch, fun li out hmem hok => sort_mem li out _ hmem hmB hok⟩
    · rw [if_neg hded] at hwc2
      exact absurd hwc2 (by simp)

/-- Witness for C1 (amended) at a concrete write with a ten-digit int t0. -/
theorem C1_filename_amended_witness :
    (fnameSearch "H1-1234567890-1.hdf5").isSome = true ∧
      ∀ (li : List Ident) (out : List Ident),
        Ident.str "H1-1234567890-1.hdf5" ∈ li →
        filter_and_sort_files li = .ok out →
        Ident.str "H1-1234567890-1.hdf5" ∈ out :=
  C1_filename_amended 1234567890 (.float 1) "H1" [("a", [0])]
    "H1-1234567890-1.hdf5" ⟨some (.int 1234567890), [("a", ⟨[0], 1⟩)]⟩
    [1] '1' [] (by decide) (by decide) (by decide) (by decide) (by decide)
    (by decide) (by decide) (by decide) (by decide) (by decide) (by decide)

/-- C4 (code bug): requesting a channel absent from the archive makes the
read fail, but not with the intended error naming the channel and the file
path: formatting that message evaluates `path.fname`, which does not exist
on `pathlib.Path`, so an `AttributeError` is raised instead.  Shown on a
concrete archive holding channel `a` while channel `b` is requested; no
partial mapping is returned. -/
theorem C4_missing_channel_attribute_error :
    read_timeseries ⟨some (.float 5), [("a", ⟨[1, 2], 4⟩)]⟩ "data.h5" ["a", "b"] =
      .error (.attributeError "PosixPath object has no attribute fname") := by decide

/-- C5 (code bug): a collection mixing a `Path` and a `str` makes the sorter
fail, but not with the intended `ValueError` describing the offending types:
building that message joins type objects with `", ".join`, which raises
`TypeError` first.  Shown on a concrete mixed input. -/
theorem C5_mixed_input_type_error :
    filter_and_sort_files [.path "x", .str "y"] =
      .error (.typeError "sequence item 0: expected str instance, type found") := by decide

end Mldatafind
